import Mathlib

/-
  Verification of the workerns DNS-over-HTTPS resolver core.

  Shallow embedding of the Rust sources:
    src/trie_map.rs   -> TrieMapNode, TrieMap
    src/override.rs   -> OverrideResolver
    src/cache.rs      -> DnsCache put/get
    src/client.rs     -> Client query / retry / upstream selection
    src/server.rs     -> build_answer_wireformat
    src/util.rs       -> random_range / FromFloat

  Domain names and keys are modeled as lists of characters (the Rust code
  works on Strings and their UTF-8 bytes; all domain characters involved are
  one byte).  External collaborators (the KV store, the HTTP fetch, the
  `domain` crate codec, `str::parse::<IpAddr>`, the hasher) are parameters
  of the corresponding functions.
-/

namespace Workerns

/-- DNS record types recognized by the code (domain crate `Rtype`). -/
inductive Rtype : Type where
  | a
  | a6
  | aaaa
  | cname
  | mx
  | ptr
  | soa
  | srv
  | txt
  | any
  | other (code : Nat)
deriving DecidableEq, Repr

/-- DNS response codes (domain crate `Rcode`); only the ones the code
branches on are named. -/
inductive Rcode : Type where
  | noError
  | nxDomain
  | other (code : Nat)
deriving DecidableEq, Repr

/-- DNS opcodes; the code only ever sets `Query`. -/
inductive Opcode : Type where
  | query
  | other (code : Nat)
deriving DecidableEq, Repr

/-- An IP address as produced by `str::parse::<IpAddr>` (std library). -/
inductive IpAddr : Type where
  | v4 (a b c d : Nat)
  | v6 (octets : List Nat)
deriving DecidableEq, Repr

/-- A DNS question: (qname, qtype, qclass).  `qname` is the presentation
form of the domain name (what `question.qname().to_string()` yields). -/
structure Question where
  qname : List Char
  qtype : Rtype
  qclass : Nat
deriving DecidableEq, Repr

/-- A DNS record, polymorphic in the representation of the rdata.  The
client and the override resolver use `UnknownRecordData` (raw octets,
`RD = List Nat`); the cache passes rdata through an abstract codec. -/
structure DnsRecord (RD : Type) where
  owner : List Char
  qclass : Nat
  ttl : Nat
  rtype : Rtype
  rdata : RD
deriving DecidableEq, Repr

/-! ## Trie (src/trie_map.rs) -/

/-- `TrieMapNode` from src/trie_map.rs: {label, value, children}. -/
inductive TrieMapNode (T : Type) : Type where
  | mk (label : Char) (value : Option T) (children : List (TrieMapNode T))

def TrieMapNode.label : TrieMapNode T → Char
  | .mk l _ _ => l

def TrieMapNode.value : TrieMapNode T → Option T
  | .mk _ v _ => v

def TrieMapNode.children : TrieMapNode T → List (TrieMapNode T)
  | .mk _ _ cs => cs

/-- `TrieMapNode::find_child`: index of the first child carrying `label`
(the Rust code scans `children` in order and returns the first match). -/
def findChildIdx : List (TrieMapNode T) → Char → Option Nat
  | [], _ => none
  | c :: cs, b => if c.label = b then some 0 else (findChildIdx cs b).map (· + 1)

/-- The chain of fresh nodes appended for the unmatched remainder of an
inserted key (the loop body of `TrieMap::put_prefix`). -/
def putChain (b : Char) : List Char → T → TrieMapNode T
  | [], v => .mk b (some v) []
  | c :: rest, v => .mk b none [putChain c rest v]

/-- `TrieMap::put_prefix`, rendered as a pure rebuild: walk children matching
consecutive characters (`traverse_trie_mut`), then either descend into the
matching child or append the chain for the remaining suffix and set the
value at the terminal node.  `findChildIdx` always returns an in-range
index, so the `none` fallback of the list access is unreachable. -/
def TrieMapNode.put : TrieMapNode T → List Char → T → TrieMapNode T
  | node, [], v => .mk node.label (some v) node.children
  | node, b :: rest, v =>
    match findChildIdx node.children b with
    | some i =>
      match node.children[i]? with
      | some child => .mk node.label node.value (node.children.set i (child.put rest v))
      | none => node
    | none => .mk node.label node.value (node.children ++ [putChain b rest v])

/-- first-some choice on options (Rust control flow `if .. is_some()`). -/
def optOr : Option T → Option T → Option T
  | some v, _ => some v
  | none, b => b

/-- `TrieMapNode::traverse_trie_for_value`: descend while children match,
remembering the most recently seen non-empty value along the path. -/
def traverseTrieForValue : TrieMapNode T → List Char → Option T → Option T
  | node, [], last => optOr node.value last
  | node, b :: rest, last =>
    match findChildIdx node.children b with
    | some i =>
      match node.children[i]? with
      | some child => traverseTrieForValue child rest (optOr node.value last)
      | none => optOr node.value last
    | none => optOr node.value last

/-- `TrieMap` from src/trie_map.rs. -/
structure TrieMap (T : Type) where
  root : TrieMapNode T

/-- `TrieMap::new`: a root with label 0 and no value. -/
def TrieMap.new : TrieMap T :=
  ⟨.mk (Char.ofNat 0) none []⟩

/-- `TrieMap::put_prefix`. -/
def TrieMap.putPfx (m : TrieMap T) (key : List Char) (v : T) : TrieMap T :=
  ⟨m.root.put key v⟩

/-- `TrieMap::get_prefix` (called `get_by_prefix` at its use site in
src/override.rs): longest-prefix greedy lookup. -/
def TrieMap.getPfx (m : TrieMap T) (key : List Char) : Option T :=
  traverseTrieForValue m.root key none

/-- A trie built from a sequence of `put_prefix` insertions. -/
def buildTrie (ins : List (List Char × T)) : TrieMap T :=
  ins.foldl (fun m kv => m.putPfx kv.1 kv.2) TrieMap.new

/-! Specification-side functions for the trie claims (these follow the
spec's words, to be compared with the trie code above). -/

/-- Spec side: value most recently inserted at exactly key `k`
("Overwrites an existing value at that exact node"). -/
def specStore (ins : List (List Char × T)) (k : List Char) : Option T :=
  ins.foldl (fun acc kv => if kv.1 = k then some kv.2 else acc) none

/-- Spec side: all prefixes of a key, longest first. -/
def pfxsDesc : List Char → List (List Char)
  | [] => [[]]
  | a :: as => (pfxsDesc as).map (a :: ·) ++ [[]]

/-- Longest common prefix of two character lists (used to phrase the
label-boundary condition of claim C4). -/
def commonPfx : List Char → List Char → List Char
  | a :: as, b :: bs => if a = b then a :: commonPfx as bs else []
  | _, _ => []

/-! ## Override resolver (src/override.rs) -/

/-- `OverrideResolver` state.  The static `BLOCK_LIST` (parsed at startup
from blocklist.txt, a config file outside src/) is modeled as an explicit
field. -/
structure OverrideResolver where
  simpleMatches : List (List Char × IpAddr)
  suffixMatches : TrieMap IpAddr
  overrideTtl : Nat
  blockList : List (List Char)

/-- HashMap lookup for the exact-match table.  Insertion is modeled as
`cons` and lookup as first match, which gives the overwrite-on-insert
semantics of `HashMap::insert`. -/
def lookupSimple : List (List Char × IpAddr) → List Char → Option IpAddr
  | [], _ => none
  | kv :: rest, k => if kv.1 = k then some kv.2 else lookupSimple rest k

/-- `OverrideResolver::build_match_tables`.  `parseIp` stands for the std
library `str::parse::<IpAddr>`; malformed addresses are skipped.  A key
starting with `*.` drops the star, keeps the dot, and is inserted into the
trie keyed by the reversed remainder. -/
def buildMatchTables (parseIp : List Char → Option IpAddr)
    (overrides : List (List Char × List Char)) :
    List (List Char × IpAddr) × TrieMap IpAddr :=
  overrides.foldl (fun acc kv =>
    match parseIp kv.2 with
    | some addr =>
      if ['*', '.'].isPrefixOf kv.1 then
        (acc.1, acc.2.putPfx (kv.1.drop 1).reverse addr)
      else
        ((kv.1, addr) :: acc.1, acc.2)
    | none => acc) ([], TrieMap.new)

/-- `OverrideResolver::new` (plus the static blocklist). -/
def OverrideResolver.new (parseIp : List Char → Option IpAddr)
    (overrides : List (List Char × List Char)) (bl : List (List Char))
    (ttl : Nat) : OverrideResolver :=
  { simpleMatches := (buildMatchTables parseIp overrides).1
    suffixMatches := (buildMatchTables parseIp overrides).2
    overrideTtl := ttl
    blockList := bl }

/-- rtype chosen by `respond_with_addr`, driven by the address family. -/
def addrRtype : IpAddr → Rtype
  | .v4 _ _ _ _ => .a
  | .v6 _ => .aaaa

/-- wire-format rdata octets of the synthesized A/AAAA record
(`AllRecordData::compose` of the domain crate; always 4 resp. 16 octets,
infallible for these variants). -/
def composeAddr : IpAddr → List Nat
  | .v4 a b c d => [a, b, c, d]
  | .v6 octets => octets

/-- `OverrideResolver::respond_with_addr`: synthesize a record whose type
is decided by the address family alone; `compose` into a fresh Vec cannot
fail, so the result is always `some`. -/
def respondWithAddr (r : OverrideResolver) (q : Question) (addr : IpAddr) :
    Option (DnsRecord (List Nat)) :=
  some { owner := q.qname, qclass := q.qclass, ttl := r.overrideTtl,
         rtype := addrRtype addr, rdata := composeAddr addr }

/-- The qtypes an override answer is synthesized for. -/
def overrideQtypes : List Rtype := [.a, .a6, .aaaa, .cname, .any]

/-- `OverrideResolver::try_resolve`: qtype gate, then exact map, then
blocklist (synthesizing 0.0.0.0), then longest-prefix lookup of the
reversed name in the wildcard trie. -/
def tryResolve (r : OverrideResolver) (q : Question) :
    Option (DnsRecord (List Nat)) :=
  if q.qtype ∈ overrideQtypes then
    match lookupSimple r.simpleMatches q.qname with
    | some addr => respondWithAddr r q addr
    | none =>
      if q.qname ∈ r.blockList then
        respondWithAddr r q (IpAddr.v4 0 0 0 0)
      else
        match r.suffixMatches.getPfx q.qname.reverse with
        | some addr => respondWithAddr r q addr
        | none => none
  else none

/-! ## Cache (src/cache.rs) -/

/-- `DnsCacheMetadata`: {created_ts (u64 seconds), ttl (u32)}. -/
structure CacheMetadata where
  createdTs : Nat
  ttl : Nat
deriving DecidableEq, Repr

/-- The KV put request issued by `put_cache`
(`KvNamespace::put_buf_ttl_metadata` arguments). -/
structure KvPutReq where
  key : String
  value : List Nat
  expirationTtl : Nat
  metadata : CacheMetadata
deriving DecidableEq, Repr

/-- Observable state of the external KV collaborator:
`list_prefix` (the `keys` names on success, `none` on error) and
`get_buf_metadata` (a pair of optional value and optional metadata). -/
structure KvState where
  listKeys : String → Option (List String)
  getBufMeta : String → Option (List Nat) × Option CacheMetadata

/-- Presentation form of an rtype (Display of the domain crate; unknown
types render through their code). -/
def rtypeShow : Rtype → String
  | .a => "A"
  | .a6 => "A6"
  | .aaaa => "AAAA"
  | .cname => "CNAME"
  | .mx => "MX"
  | .ptr => "PTR"
  | .soa => "SOA"
  | .srv => "SRV"
  | .txt => "TXT"
  | .any => "ANY"
  | .other n => toString n

/-- `DnsCache::record_to_key`: "{owner};{rtype};{class};{hash(buf)}". -/
def recordToKey (hash : List Nat → Nat) (r : DnsRecord RD) (buf : List Nat) :
    String :=
  String.mk r.owner ++ ";" ++ rtypeShow r.rtype ++ ";" ++ toString r.qclass
    ++ ";" ++ toString (hash buf)

/-- `DnsCache::question_to_key_prefix`: "{qname};{qtype};{qclass};". -/
def questionToKeyPfx (q : Question) : String :=
  String.mk q.qname ++ ";" ++ rtypeShow q.qtype ++ ";" ++ toString q.qclass
    ++ ";"

/-- `DnsCache::put_cache`: serialize the rdata (may fail), then issue one
KV put with `expirationTtl = record.ttl` and metadata
{created_ts = now, ttl = record.ttl}.  `serialize` stands for
`owned_record_data_to_buffer`, `hash` for `util::hash_buf`, `now` for
`Date::now()/1000`.  The returned value is the request handed to the KV. -/
def putCache (serialize : RD → Option (List Nat)) (hash : List Nat → Nat)
    (now : Nat) (record : DnsRecord RD) : Option KvPutReq :=
  match serialize record.rdata with
  | none => none
  | some data =>
    some { key := recordToKey hash record data
           value := data
           expirationTtl := record.ttl
           metadata := { createdTs := now, ttl := record.ttl } }

/-- u64 wrapping subtraction (release-mode `a - b` on u64), for
`now - metadata.created_ts`. -/
def u64sub (a b : Nat) : Nat :=
  (a + (2 ^ 64 - b % 2 ^ 64)) % 2 ^ 64

/-- The key loop of `DnsCache::get_cache`: fetch value+metadata for each
listed key; skip the key when either is missing; compute the residual TTL;
a parse failure of any entry (`octets_to_owned_record_data(..).ok()?`)
aborts the whole get.  `remaining_ttl as u32` is the final cast. -/
def getCacheLoop (parse : Rtype → List Nat → Option RD) (kv : KvState)
    (now : Nat) (q : Question) : List String → Option (List (DnsRecord RD))
  | [] => some []
  | k :: rest =>
    match kv.getBufMeta k with
    | (some value, some md) =>
      match parse q.qtype value with
      | none => none
      | some rd =>
        match getCacheLoop parse kv now q rest with
        | none => none
        | some restRecs =>
          some ({ owner := q.qname, qclass := q.qclass,
                  ttl := (if u64sub now md.createdTs > md.ttl then 0
                          else md.ttl - u64sub now md.createdTs) % 2 ^ 32,
                  rtype := q.qtype, rdata := rd } :: restRecs)
    | _ => getCacheLoop parse kv now q rest

/-- `DnsCache::get_cache`: list keys by the question prefix (`None` on a
list error or when the list is empty), run the fetch loop, and return
`None` instead of an empty record list when every key was skipped. -/
def getCache (parse : Rtype → List Nat → Option RD) (kv : KvState)
    (now : Nat) (q : Question) : Option (List (DnsRecord RD)) :=
  match kv.listKeys (questionToKeyPfx q) with
  | none => none
  | some keys =>
    if keys.length = 0 then none
    else
      match getCacheLoop parse kv now q keys with
      | none => none
      | some ret => if ret.length = 0 then none else some ret

/-! ## Client (src/client.rs) -/

/-- Result of one upstream round trip: the response rcode together with the
outcome of `extract_answers` on the answer section (only consulted in the
NOERROR branch). -/
structure UpstreamResp where
  rcode : Rcode
  extracted : Except String (List (DnsRecord (List Nat)))

/-- `Client::try_answer_from_local`: per question, try the override
resolver, then the cache, else keep the question for upstream; answer and
remainder order is preserved.  `resolve` and `cacheGet` stand for
`override_resolver.try_resolve` and `cache.get_cache`. -/
def tryAnswerFromLocal (resolve : Question → Option (DnsRecord (List Nat)))
    (cacheGet : Question → Option (List (DnsRecord (List Nat)))) :
    List Question → List (DnsRecord (List Nat)) × List Question
  | [] => ([], [])
  | q :: qs =>
    match resolve q with
    | some ans =>
      ((tryAnswerFromLocal resolve cacheGet qs).1.cons ans,
       (tryAnswerFromLocal resolve cacheGet qs).2)
    | none =>
      match cacheGet q with
      | some l =>
        (l ++ (tryAnswerFromLocal resolve cacheGet qs).1,
         (tryAnswerFromLocal resolve cacheGet qs).2)
      | none =>
        ((tryAnswerFromLocal resolve cacheGet qs).1,
         (tryAnswerFromLocal resolve cacheGet qs).2.cons q)

/-- `Client::query`.  `ups` stands for the composition of `build_query`,
`select_upstream` and `do_query` on the remaining questions (an `Err` for
a build/network/status/parse failure).  On NOERROR the extracted upstream
answers are written through the cache (no effect on the returned value)
and concatenated upstream-first with the local answers; on NXDOMAIN the
function returns an empty list; any other rcode is an error. -/
def clientQuery (resolve : Question → Option (DnsRecord (List Nat)))
    (cacheGet : Question → Option (List (DnsRecord (List Nat))))
    (ups : List Question → Except String UpstreamResp)
    (questions : List Question) : Except String (List (DnsRecord (List Nat))) :=
  if (tryAnswerFromLocal resolve cacheGet questions).2.length = 0 then
    .ok (tryAnswerFromLocal resolve cacheGet questions).1
  else
    match ups (tryAnswerFromLocal resolve cacheGet questions).2 with
    | .error e => .error e
    | .ok resp =>
      match resp.rcode with
      | .noError =>
        match resp.extracted with
        | .error e => .error e
        | .ok ret => .ok (ret ++ (tryAnswerFromLocal resolve cacheGet questions).1)
      | .nxDomain => .ok []
      | .other n => .error ("Server error: " ++ toString n)

/-- `last_res.is_ok()`. -/
def isOkB : Except String T → Bool
  | .ok _ => true
  | .error _ => false

/-- The retry loop of `Client::query_with_retry`: remaining iterations,
index of the next attempt, last result so far.  Returns the final result
together with the number of attempts made.  `attempt i` stands for the
result of the i-th invocation of `Client::query` (each invocation is
independent and selects a fresh upstream). -/
def retryAux (attempt : Nat → Except String T) :
    Nat → Nat → Except String T → Except String T × Nat
  | 0, i, last => (last, i)
  | n + 1, i, _ =>
    if isOkB (attempt i) then (attempt i, i + 1)
    else retryAux attempt n (i + 1) (attempt i)

/-- `Client::query_with_retry`: up to `retries` attempts starting from the
sentinel `Err("Dummy")`. -/
def queryWithRetry (attempt : Nat → Except String T) (retries : Nat) :
    Except String T :=
  (retryAux attempt retries 0 (.error "Dummy")).1

/-- Number of `Client::query` invocations made by `query_with_retry`. -/
def queryWithRetryAttempts (attempt : Nat → Except String T)
    (retries : Nat) : Nat :=
  (retryAux attempt retries 0 (.error "Dummy")).2

/-! ## Upstream selection (src/client.rs, src/util.rs) -/

/-- `<u16 as FromFloat<f64>>::from_float`, i.e. `f as u16`: truncation
toward zero, saturating at the type bounds. -/
def fromFloatU16 (f : ℚ) : Nat :=
  if f < 0 then 0 else min (Nat.floor f) 65535

/-- `util::random_range(min, max)` at `T = u16`:
`min + from_float(random() * max as f64)`, with wrapping u16 addition.
`r` is the value drawn by `Math.random()`, in `[0, 1)`. -/
def randomRange (mn mx : Nat) (r : ℚ) : Nat :=
  (mn + fromFloatU16 (r * mx)) % 2 ^ 16

/-- `Client::select_upstream`: index `random_range(0, len as u16)` into the
upstream list (`none` models the out-of-bounds panic). -/
def selectUpstream (urls : List String) (r : ℚ) : Option String :=
  urls[randomRange 0 (urls.length % 2 ^ 16) r]?

/-! ## Server (src/server.rs) -/

/-- The DNS message assembled by `build_answer_wireformat` (header fields
the code sets, the echoed questions, the answer records).  The size-limit
failures of the external `MessageBuilder` pushes are not modeled. -/
structure DnsMessage where
  id : Nat
  qr : Bool
  opcode : Opcode
  aa : Bool
  ra : Bool
  rcode : Rcode
  questions : List Question
  answers : List (DnsRecord (List Nat))

/-- `Server::build_answer_wireformat`: copy the transaction id, set
Opcode=QUERY, QR=1, AA=0, RA=1; set RCODE=NXDOMAIN when the record list is
empty (the builder's default rcode, NOERROR, remains otherwise); echo the
questions; push the records as answers. -/
def buildAnswerWireformat (id : Nat) (questions : List Question)
    (records : List (DnsRecord (List Nat))) : DnsMessage :=
  { id := id, qr := true, opcode := .query, aa := false, ra := true
    rcode := if records.length = 0 then .nxDomain else .noError
    questions := questions
    answers := records }

/-! ## Proof-side definitions -/

/-- The value stored at the node reached by following `key` exactly
(none when the path does not exist).  Proof-side description of the trie
contents. -/
def nodeValAt : TrieMapNode T → List Char → Option T
  | node, [] => node.value
  | node, b :: rest =>
    match findChildIdx node.children b with
    | some i =>
      match node.children[i]? with
      | some c => nodeValAt c rest
      | none => none
    | none => none

/-- The deepest value stored on the path of `q`: first hit of `nodeValAt`
over the prefixes of `q`, longest first. -/
def bestIn (node : TrieMapNode T) (q : List Char) : Option T :=
  (pfxsDesc q).findSome? (nodeValAt node)

/-- Trie root after folding a list of insertions over a start node. -/
def foldPut (ins : List (List Char × T)) (node : TrieMapNode T) :
    TrieMapNode T :=
  ins.foldl (fun n kv => n.put kv.1 kv.2) node

end Workerns

namespace Workerns

/-! ## Basic lemmas -/

@[simp] theorem label_mk (l : Char) (v : Option T) (cs : List (TrieMapNode T)) :
    (TrieMapNode.mk l v cs).label = l := rfl

@[simp] theorem value_mk (l : Char) (v : Option T) (cs : List (TrieMapNode T)) :
    (TrieMapNode.mk l v cs).value = v := rfl

@[simp] theorem children_mk (l : Char) (v : Option T) (cs : List (TrieMapNode T)) :
    (TrieMapNode.mk l v cs).children = cs := rfl

@[simp] theorem optOr_none_right (a : Option T) : optOr a none = a := by
  cases a <;> rfl

@[simp] theorem optOr_none_left (a : Option T) : optOr none a = a := rfl

theorem optOr_assoc (a b c : Option T) :
    optOr (optOr a b) c = optOr a (optOr b c) := by
  cases a <;> rfl

theorem get?_some_lt {l : List α} {i : Nat} {c : α} (h : l[i]? = some c) :
    i < l.length := by
  induction l generalizing i with
  | nil => simp at h
  | cons a l ih =>
    cases i with
    | zero => simp
    | succ j =>
      simp only [List.getElem?_cons_succ] at h
      exact Nat.succ_lt_succ (ih h)

theorem get?_set_same {l : List α} {i : Nat} (x : α) (h : i < l.length) :
    (l.set i x)[i]? = some x := by
  induction l generalizing i with
  | nil => simp at h
  | cons a l ih =>
    cases i with
    | zero => simp
    | succ j =>
      simp only [List.set_cons_succ, List.getElem?_cons_succ]
      exact ih (Nat.lt_of_succ_lt_succ h)

theorem get?_set_other {l : List α} (i j : Nat) (x : α) (h : i ≠ j) :
    (l.set i x)[j]? = l[j]? := by
  induction l generalizing i j with
  | nil => simp
  | cons a l ih =>
    cases i with
    | zero =>
      cases j with
      | zero => exact absurd rfl h
      | succ j' => simp
    | succ i' =>
      cases j with
      | zero => simp
      | succ j' =>
        simp only [List.set_cons_succ, List.getElem?_cons_succ]
        exact ih i' j' (fun hh => h (by rw [hh]))

theorem fs_congr {f g : α → Option β} {l : List α}
    (h : ∀ a ∈ l, f a = g a) : l.findSome? f = l.findSome? g := by
  induction l with
  | nil => rfl
  | cons a l ih =>
    simp only [List.findSome?]
    rw [h a (List.mem_cons_self a l), ih (fun x hx => h x (List.mem_cons_of_mem a hx))]

theorem fs_append (f : α → Option β) (l1 l2 : List α) :
    (l1 ++ l2).findSome? f = optOr (l1.findSome? f) (l2.findSome? f) := by
  induction l1 with
  | nil => rfl
  | cons a l ih =>
    simp only [List.cons_append, List.findSome?]
    cases f a with
    | some b => rfl
    | none => simpa using ih

theorem fs_map (f : α → Option β) (g : γ → α) (l : List γ) :
    (l.map g).findSome? f = l.findSome? (fun c => f (g c)) := by
  induction l with
  | nil => rfl
  | cons a l ih =>
    simp only [List.map_cons, List.findSome?]
    cases f (g a) with
    | some b => rfl
    | none => simpa using ih

theorem fs_none {f : α → Option β} {l : List α}
    (h : ∀ a ∈ l, f a = none) : l.findSome? f = none := by
  induction l with
  | nil => rfl
  | cons a l ih =>
    simp only [List.findSome?, h a (List.mem_cons_self a l)]
    exact ih (fun x hx => h x (List.mem_cons_of_mem a hx))

/-! ## Trie lemmas -/

theorem findChildIdx_some {cs : List (TrieMapNode T)} {b : Char} {i : Nat}
    (h : findChildIdx cs b = some i) :
    ∃ c, cs[i]? = some c ∧ c.label = b := by
  induction cs generalizing i with
  | nil => simp [findChildIdx] at h
  | cons c cs ih =>
    by_cases hl : c.label = b
    · simp only [findChildIdx, if_pos hl] at h
      cases h
      exact ⟨c, by simp, hl⟩
    · simp only [findChildIdx, if_neg hl, Option.map_eq_some'] at h
      obtain ⟨j, hj, rfl⟩ := h
      obtain ⟨d, hd, hdl⟩ := ih hj
      exact ⟨d, by simpa using hd, hdl⟩

theorem findChildIdx_none {cs : List (TrieMapNode T)} {b : Char}
    (h : findChildIdx cs b = none) : ∀ c ∈ cs, c.label ≠ b := by
  induction cs with
  | nil => intro c hc; simp at hc
  | cons c cs ih =>
    by_cases hl : c.label = b
    · simp [findChildIdx, if_pos hl] at h
    · simp only [findChildIdx, if_neg hl, Option.map_eq_none'] at h
      intro d hd
      rcases List.mem_cons.1 hd with rfl | hmem
      · exact hl
      · exact ih h d hmem

theorem findChildIdx_set {cs : List (TrieMapNode T)} {i : Nat}
    {c c' : TrieMapNode T} (hc : cs[i]? = some c) (hl : c'.label = c.label)
    (b : Char) : findChildIdx (cs.set i c') b = findChildIdx cs b := by
  induction cs generalizing i with
  | nil => simp at hc
  | cons d cs ih =>
    cases i with
    | zero =>
      simp only [List.getElem?_cons_zero, Option.some.injEq] at hc
      subst hc
      simp only [List.set_cons_zero, findChildIdx, hl]
    | succ j =>
      simp only [List.getElem?_cons_succ] at hc
      simp only [List.set_cons_succ, findChildIdx, ih hc]

theorem findChildIdx_append_single (cs : List (TrieMapNode T))
    (c : TrieMapNode T) (b : Char) :
    findChildIdx (cs ++ [c]) b =
      optOr (findChildIdx cs b)
        (if c.label = b then some cs.length else none) := by
  induction cs with
  | nil =>
    by_cases hcl : c.label = b <;>
      simp [findChildIdx, hcl, optOr]
  | cons d cs ih =>
    by_cases hl : d.label = b
    · simp only [List.cons_append, findChildIdx, if_pos hl]
      rfl
    · simp only [List.cons_append, findChildIdx, if_neg hl, List.append_eq]
      rw [ih]
      cases hfc : findChildIdx cs b with
      | some j => rfl
      | none =>
        by_cases hcl : c.label = b
        · simp [hcl, optOr, List.length_cons]
        · simp [hcl, optOr]

theorem get?_append_left {l : List α} (l' : List α) {j : Nat}
    (h : j < l.length) : (l ++ l')[j]? = l[j]? := by
  induction l generalizing j with
  | nil => simp at h
  | cons a l ih =>
    cases j with
    | zero => simp
    | succ j' =>
      simp only [List.cons_append, List.getElem?_cons_succ]
      exact ih (Nat.lt_of_succ_lt_succ h)

theorem get?_append_singleton (l : List α) (x : α) :
    (l ++ [x])[l.length]? = some x := by
  induction l with
  | nil => rfl
  | cons a l ih =>
    simp [ih]

theorem label_putChain (b : Char) (rest : List Char) (v : T) :
    (putChain b rest v).label = b := by
  cases rest <;> rfl

theorem label_put (node : TrieMapNode T) (k : List Char) (v : T) :
    (node.put k v).label = node.label := by
  cases k with
  | nil => rfl
  | cons b rest =>
    simp only [TrieMapNode.put]
    split
    · split
      · rfl
      · rfl
    · rfl

theorem nodeValAt_putChain (b : Char) (rest r' : List Char) (v : T) :
    nodeValAt (putChain b rest v) r' = if r' = rest then some v else none := by
  induction rest generalizing b r' with
  | nil =>
    cases r' with
    | nil => simp [putChain, nodeValAt]
    | cons c r'' => simp [putChain, nodeValAt, findChildIdx]
  | cons c cs ih =>
    cases r' with
    | nil => simp [putChain, nodeValAt]
    | cons c' r'' =>
      by_cases hc : c = c'
      · subst hc
        simp [putChain, nodeValAt, findChildIdx, label_putChain, ih,
          List.cons.injEq]
      · simp only [putChain, nodeValAt, findChildIdx, label_putChain,
          if_neg hc, Option.map_eq_some']
        have hcond : ¬(c' = c ∧ r'' = cs) := fun hh => hc hh.1.symm
        simp [if_neg hcond]

theorem nodeValAt_put (node : TrieMapNode T) (k k' : List Char) (v : T) :
    nodeValAt (node.put k v) k' =
      if k' = k then some v else nodeValAt node k' := by
  induction k generalizing node k' with
  | nil =>
    cases k' with
    | nil => simp [TrieMapNode.put, nodeValAt]
    | cons b' r' => simp [TrieMapNode.put, nodeValAt]
  | cons b rest ih =>
    simp only [TrieMapNode.put]
    cases hfc : findChildIdx node.children b with
    | some i =>
      obtain ⟨child, hci, hlb⟩ := findChildIdx_some hfc
      simp only [hci]
      cases k' with
      | nil => simp [nodeValAt]
      | cons b' r' =>
        have hset : findChildIdx (node.children.set i (child.put rest v)) b'
            = findChildIdx node.children b' :=
          findChildIdx_set hci (label_put child rest v) b'
        by_cases hb : b' = b
        · subst hb
          simp only [nodeValAt, children_mk, hset, hfc,
            get?_set_same (child.put rest v) (get?_some_lt hci), ih]
          rw [hci]
          simp [List.cons.injEq]
        · simp only [nodeValAt, children_mk, hset]
          cases hfc' : findChildIdx node.children b' with
          | some j =>
            have hji : j ≠ i := by
              intro hji
              obtain ⟨c', hcj, hlc⟩ := findChildIdx_some hfc'
              rw [hji, hci] at hcj
              cases hcj
              exact hb (hlc ▸ hlb ▸ rfl)
            simp only [get?_set_other i j (child.put rest v)
              (fun hh => hji hh.symm)]
            simp [hb, List.cons.injEq]
          | none => simp [hb, List.cons.injEq]
    | none =>
      cases k' with
      | nil => simp [nodeValAt]
      | cons b' r' =>
        simp only [nodeValAt, children_mk,
          findChildIdx_append_single, label_putChain]
        by_cases hb : b' = b
        · subst hb
          rw [hfc]
          simp only [optOr_none_left, if_pos rfl, get?_append_singleton,
            nodeValAt, hfc]
          simp [List.cons.injEq, nodeValAt_putChain]
        · rw [if_neg (fun hh : b = b' => hb hh.symm)]
          cases hfc' : findChildIdx node.children b' with
          | some j =>
            obtain ⟨c', hcj, hlc⟩ := findChildIdx_some hfc'
            simp only [optOr]
            rw [get?_append_left _ (get?_some_lt hcj)]
            simp [hb, nodeValAt, hfc', hcj]
          | none =>
            simp [optOr, hb, nodeValAt, hfc']

theorem fs_singleton (f : α → Option β) (a : α) :
    [a].findSome? f = f a := by
  simp only [List.findSome?]
  cases f a <;> rfl

theorem bestIn_cons (node : TrieMapNode T) (b : Char) (rest : List Char) :
    bestIn node (b :: rest) =
      optOr ((pfxsDesc rest).findSome? (fun p => nodeValAt node (b :: p)))
        node.value := by
  rw [bestIn, show pfxsDesc (b :: rest)
      = (pfxsDesc rest).map (b :: ·) ++ [[]] from rfl,
    fs_append, fs_map, fs_singleton]
  rfl

theorem traverse_eq_bestIn (node : TrieMapNode T) (q : List Char)
    (last : Option T) :
    traverseTrieForValue node q last = optOr (bestIn node q) last := by
  induction q generalizing node last with
  | nil =>
    show optOr node.value last = optOr (bestIn node []) last
    rw [show bestIn node [] = node.value from by
      rw [bestIn, pfxsDesc, fs_singleton]; cases node; rfl]
  | cons b rest ih =>
    rw [bestIn_cons]
    simp only [traverseTrieForValue]
    cases hfc : findChildIdx node.children b with
    | some i =>
      obtain ⟨child, hci, hlb⟩ := findChildIdx_some hfc
      simp only [hci]
      rw [ih]
      have hcong : (pfxsDesc rest).findSome? (fun p => nodeValAt node (b :: p))
          = bestIn child rest := by
        rw [bestIn]
        refine fs_congr ?_
        intro p hp
        simp [nodeValAt, hfc, hci]
      rw [hcong, optOr_assoc]
    | none =>
      have hnone : (pfxsDesc rest).findSome? (fun p => nodeValAt node (b :: p))
          = none := by
        refine fs_none ?_
        intro p hp
        simp [nodeValAt, hfc]
      simp only [hnone, optOr_none_left]

theorem foldStore_acc (ins : List (List Char × T)) (k : List Char)
    (acc : Option T) :
    ins.foldl (fun a kv => if kv.1 = k then some kv.2 else a) acc
      = optOr (specStore ins k) acc := by
  induction ins generalizing acc with
  | nil => rfl
  | cons kv tl ih =>
    simp only [List.foldl_cons, specStore] at ih ⊢
    rw [ih (if kv.1 = k then some kv.2 else acc),
      ih (if kv.1 = k then some kv.2 else none), optOr_assoc]
    congr 1
    by_cases h : kv.1 = k <;> simp [h, optOr]

theorem specStore_cons (kv : List Char × T) (tl : List (List Char × T))
    (k : List Char) :
    specStore (kv :: tl) k
      = optOr (specStore tl k) (if kv.1 = k then some kv.2 else none) := by
  simp only [specStore, List.foldl_cons]
  exact foldStore_acc tl k _

theorem foldPut_nodeValAt (ins : List (List Char × T)) (node : TrieMapNode T)
    (k : List Char) :
    nodeValAt (foldPut ins node) k
      = optOr (specStore ins k) (nodeValAt node k) := by
  induction ins generalizing node with
  | nil => rfl
  | cons kv tl ih =>
    simp only [foldPut, List.foldl_cons] at ih ⊢
    rw [ih, nodeValAt_put, specStore_cons, optOr_assoc]
    congr 1
    by_cases h : kv.1 = k
    · simp [h, optOr]
    · have h2 : ¬(k = kv.1) := fun hh => h hh.symm
      simp [optOr, h, h2]

theorem nodeValAt_newRoot (k : List Char) :
    nodeValAt (TrieMap.new (T := T)).root k = none := by
  cases k with
  | nil => rfl
  | cons b r => rfl

theorem buildTrie_root (ins : List (List Char × T)) :
    (buildTrie ins).root = foldPut ins (TrieMap.new (T := T)).root := by
  suffices h : ∀ m : TrieMap T,
      (ins.foldl (fun m kv => m.putPfx kv.1 kv.2) m).root = foldPut ins m.root by
    exact h TrieMap.new
  intro m
  induction ins generalizing m with
  | nil => rfl
  | cons kv tl ih =>
    simp only [List.foldl_cons, foldPut] at ih ⊢
    exact ih _

theorem mem_pfxsDesc {q p : List Char} : p ∈ pfxsDesc q ↔ p <+: q := by
  induction q generalizing p with
  | nil =>
    simp only [pfxsDesc, List.mem_singleton]
    constructor
    · rintro rfl; exact List.nil_prefix
    · intro h; exact List.prefix_nil.1 h
  | cons a as ih =>
    simp only [pfxsDesc, List.mem_append, List.mem_map, List.mem_singleton]
    constructor
    · rintro (⟨x, hx, rfl⟩ | rfl)
      · exact (List.prefix_cons_inj a).2 (ih.1 hx)
      · exact List.nil_prefix
    · intro h
      cases p with
      | nil => exact Or.inr rfl
      | cons b bs =>
        obtain ⟨t, ht⟩ := h
        injection ht with h1 h2
        subst h1
        exact Or.inl ⟨bs, ih.2 ⟨t, h2⟩, rfl⟩

theorem specStore_single (k p : List Char) (v : T) :
    specStore [(k, v)] p = if k = p then some v else none := rfl

theorem fs_ifeq (k : List Char) (v : T) (l : List (List Char)) :
    (l.findSome? fun p => if k = p then some v else none)
      = if k ∈ l then some v else none := by
  induction l with
  | nil => rfl
  | cons a l ih =>
    simp only [List.findSome?]
    by_cases h : k = a
    · subst h; simp
    · simp only [if_neg h, ih, List.mem_cons]
      by_cases h2 : k ∈ l
      · simp [h2, h]
      · simp [h2, h]

theorem getPfx_single (key q : List Char) (v : T) :
    (buildTrie [(key, v)]).getPfx q = if key <+: q then some v else none := by
  rw [TrieMap.getPfx, buildTrie_root, traverse_eq_bestIn, optOr_none_right,
    bestIn]
  have hcong : ∀ p ∈ pfxsDesc q,
      nodeValAt (foldPut [(key, v)] (TrieMap.new (T := T)).root) p
        = if key = p then some v else none := by
    intro p hp
    rw [foldPut_nodeValAt, nodeValAt_newRoot, optOr_none_right,
      specStore_single]
  rw [fs_congr hcong, fs_ifeq]
  by_cases h : key <+: q
  · rw [if_pos h, if_pos (mem_pfxsDesc.2 h)]
  · rw [if_neg h, if_neg (fun hm => h (mem_pfxsDesc.1 hm))]

theorem commonPfx_of_le {l key : List Char} (h : key <+: l) :
    commonPfx l key = key := by
  induction key generalizing l with
  | nil => cases l <;> rfl
  | cons b bs ih =>
    obtain ⟨t, ht⟩ := h
    subst ht
    simp only [List.cons_append, commonPfx, if_pos rfl, List.append_eq]
    rw [ih ⟨t, rfl⟩]
    simp

theorem commonPfx_short_not_le {l key : List Char}
    (h : (commonPfx l key).length < key.length) : ¬ key <+: l := by
  intro hp
  rw [commonPfx_of_le hp] at h
  exact lt_irrefl _ h

/-- C9: a `TrieMap` built by a sequence of `put_prefix` insertions, looked
up with `get_prefix`, returns the value stored at the longest inserted key
that is a prefix of the lookup key — with the most recent insertion at
that exact key winning, since insertion overwrites — and `none` when no
inserted key is a prefix of the lookup key.  `specStore` is the
last-insertion-wins store at an exact key and `pfxsDesc` lists the
prefixes of the lookup key longest first, so the right-hand side is
exactly "the value at the longest inserted key that is a prefix". -/
theorem c9_trie_longest_match (ins : List (List Char × T)) (q : List Char) :
    (buildTrie ins).getPfx q = (pfxsDesc q).findSome? (specStore ins) := by
  rw [TrieMap.getPfx, buildTrie_root, traverse_eq_bestIn, optOr_none_right,
    bestIn]
  refine fs_congr ?_
  intro p hp
  rw [foldPut_nodeValAt, nodeValAt_newRoot, optOr_none_right]

/-! ## Override resolver lemmas -/

theorem buildMatchTables_single_wild (parseIp : List Char → Option IpAddr)
    (S v : List Char) (ip : IpAddr) (hp : parseIp v = some ip) :
    buildMatchTables parseIp [('*' :: '.' :: S, v)]
      = ([], buildTrie [(('.' :: S).reverse, ip)]) := by
  simp only [buildMatchTables, List.foldl_cons, List.foldl_nil, hp]
  have hw : ['*', '.'].isPrefixOf ('*' :: '.' :: S) = true := by
    simp [List.isPrefixOf]
  rw [if_pos hw]
  rfl

theorem tryResolve_single_wild (parseIp : List Char → Option IpAddr)
    (S v name : List Char) (ip : IpAddr) (bl : List (List Char))
    (ttl qclass : Nat) (qt : Rtype)
    (hp : parseIp v = some ip) (hqt : qt ∈ overrideQtypes)
    (hbl : name ∉ bl) :
    tryResolve (OverrideResolver.new parseIp [('*' :: '.' :: S, v)] bl ttl)
        { qname := name, qtype := qt, qclass := qclass }
      = if ('.' :: S).reverse <+: name.reverse then
          some { owner := name, qclass := qclass, ttl := ttl,
                 rtype := addrRtype ip, rdata := composeAddr ip }
        else none := by
  have hbmt := buildMatchTables_single_wild parseIp S v ip hp
  by_cases h : ('.' :: S).reverse <+: name.reverse
  · have hget : (buildTrie [(('.' :: S).reverse, ip)]).getPfx name.reverse
        = some ip := by
      rw [getPfx_single, if_pos h]
    simp only [tryResolve, OverrideResolver.new, hbmt, if_pos hqt,
      lookupSimple, if_neg hbl, hget, respondWithAddr, if_pos h]
  · have hget : (buildTrie [(('.' :: S).reverse, ip)]).getPfx name.reverse
        = none := by
      rw [getPfx_single, if_neg h]
    simp only [tryResolve, OverrideResolver.new, hbmt, if_pos hqt,
      lookupSimple, if_neg hbl, hget, if_neg h]

/-- C4: for an override wildcard `*.S → IP`, stored in the trie under the
reversed suffix including the leading dot, and a question with an allowed
qtype, no exact-map entry (the exact map of this configuration is empty)
and no blocklist entry: when `reverse(.S)` is a prefix of
`reverse(qname)` the resolver answers with IP, and when the longest
common prefix of `reverse(qname)` with the stored key stops short of the
stored key's end (whose last character is the retained dot — a match that
would cross a label boundary) the resolver returns no override answer. -/
theorem c4_wildcard_boundary (parseIp : List Char → Option IpAddr)
    (S v name : List Char) (ip : IpAddr) (bl : List (List Char))
    (ttl qclass : Nat) (qt : Rtype)
    (hp : parseIp v = some ip) (hqt : qt ∈ overrideQtypes)
    (hbl : name ∉ bl) :
    ((('.' :: S).reverse <+: name.reverse) →
      tryResolve (OverrideResolver.new parseIp [('*' :: '.' :: S, v)] bl ttl)
          { qname := name, qtype := qt, qclass := qclass }
        = some { owner := name, qclass := qclass, ttl := ttl,
                 rtype := addrRtype ip, rdata := composeAddr ip })
    ∧ ((commonPfx name.reverse (('.' :: S).reverse)).length
          < (('.' :: S).reverse).length →
      tryResolve (OverrideResolver.new parseIp [('*' :: '.' :: S, v)] bl ttl)
          { qname := name, qtype := qt, qclass := qclass } = none) := by
  constructor
  · intro h
    rw [tryResolve_single_wild parseIp S v name ip bl ttl qclass qt hp hqt hbl,
      if_pos h]
  · intro h
    rw [tryResolve_single_wild parseIp S v name ip bl ttl qclass qt hp hqt hbl,
      if_neg (commonPfx_short_not_le h)]

/-- C4 witness: the wildcard `*.ads.example → 192.0.2.1`; the qname
banner.ads.example matches and resolves to the override record, while
notads.example (whose match would cross the label boundary) gets no
override answer. -/
theorem c4_wildcard_boundary_witness :
    tryResolve (OverrideResolver.new
        (fun s => if s = "192.0.2.1".toList then some (IpAddr.v4 192 0 2 1)
          else none)
        [('*' :: '.' :: "ads.example".toList, "192.0.2.1".toList)] [] 60)
        { qname := "banner.ads.example".toList, qtype := .a, qclass := 1 }
      = some { owner := "banner.ads.example".toList, qclass := 1, ttl := 60,
               rtype := .a, rdata := [192, 0, 2, 1] }
    ∧ tryResolve (OverrideResolver.new
        (fun s => if s = "192.0.2.1".toList then some (IpAddr.v4 192 0 2 1)
          else none)
        [('*' :: '.' :: "ads.example".toList, "192.0.2.1".toList)] [] 60)
        { qname := "notads.example".toList, qtype := .a, qclass := 1 }
      = none :=
  ⟨(c4_wildcard_boundary _ "ads.example".toList "192.0.2.1".toList
      "banner.ads.example".toList (IpAddr.v4 192 0 2 1) [] 60 1 .a
      (by decide) (by decide) (by decide)).1 (by decide),
   (c4_wildcard_boundary _ "ads.example".toList "192.0.2.1".toList
      "notads.example".toList (IpAddr.v4 192 0 2 1) [] 60 1 .a
      (by decide) (by decide) (by decide)).2 (by decide)⟩

/-- C8: for every override or blocklist hit — all of which go through
`respond_with_addr` — the rtype of the synthesized record is decided by
the address family of the stored IP alone (IPv4 gives A, IPv6 gives
AAAA), independently of the question's qtype; in particular a wildcard
mapped to an IPv6 address yields an AAAA record even when the qtype was
A. -/
theorem c8_addr_family_rtype :
    (∀ (r : OverrideResolver) (q : Question) (addr : IpAddr),
      respondWithAddr r q addr
        = some { owner := q.qname, qclass := q.qclass, ttl := r.overrideTtl,
                 rtype := addrRtype addr, rdata := composeAddr addr })
    ∧ (∀ a b c d, addrRtype (IpAddr.v4 a b c d) = Rtype.a)
    ∧ (∀ o, addrRtype (IpAddr.v6 o) = Rtype.aaaa)
    ∧ (∀ (parseIp : List Char → Option IpAddr) (S v name : List Char)
        (o : List Nat) (bl : List (List Char)) (ttl qclass : Nat),
      parseIp v = some (IpAddr.v6 o) → name ∉ bl →
      ('.' :: S).reverse <+: name.reverse →
      tryResolve (OverrideResolver.new parseIp [('*' :: '.' :: S, v)] bl ttl)
          { qname := name, qtype := .a, qclass := qclass }
        = some { owner := name, qclass := qclass, ttl := ttl,
                 rtype := .aaaa, rdata := o }) := by
  refine ⟨fun r q addr => rfl, fun a b c d => rfl, fun o => rfl,
    fun parseIp S v name o bl ttl qclass hp hbl h => ?_⟩
  rw [tryResolve_single_wild parseIp S v name (IpAddr.v6 o) bl ttl qclass .a
    hp (by decide) hbl, if_pos h]
  rfl

/-- C8 witness: a wildcard mapped to an IPv6 address answers an A question
with an AAAA record. -/
theorem c8_addr_family_rtype_witness :
    tryResolve (OverrideResolver.new
        (fun _ => some (IpAddr.v6 [0, 0, 0, 0, 0, 0, 0, 0, 0, 0, 0, 0, 0, 0, 0, 1]))
        [('*' :: '.' :: "ads.example".toList, "::1".toList)] [] 60)
        { qname := "banner.ads.example".toList, qtype := .a, qclass := 1 }
      = some { owner := "banner.ads.example".toList, qclass := 1, ttl := 60,
               rtype := .aaaa,
               rdata := [0, 0, 0, 0, 0, 0, 0, 0, 0, 0, 0, 0, 0, 0, 0, 1] } :=
  c8_addr_family_rtype.2.2.2 _ "ads.example".toList "::1".toList
    "banner.ads.example".toList [0, 0, 0, 0, 0, 0, 0, 0, 0, 0, 0, 0, 0, 0, 0, 1]
    [] 60 1 rfl (by decide) (by decide)

/-! ## Retry loop lemmas (src/client.rs query_with_retry) -/

theorem retryAux_succ (attempt : Nat → Except String T) (n i : Nat)
    (last : Except String T) :
    retryAux attempt (n + 1) i last =
      if isOkB (attempt i) = true then (attempt i, i + 1)
      else retryAux attempt n (i + 1) (attempt i) := rfl

theorem retryAux_snd_le (attempt : Nat → Except String T) (m i : Nat)
    (last : Except String T) : (retryAux attempt m i last).2 ≤ i + m := by
  induction m generalizing i last with
  | zero => simp [retryAux]
  | succ n ih =>
    rw [retryAux_succ]
    by_cases h : isOkB (attempt i) = true
    · rw [if_pos h]
      omega
    · rw [if_neg h]
      have := ih (i + 1) (attempt i)
      omega

theorem retryAux_first_ok (attempt : Nat → Except String T) (m i j : Nat)
    (last : Except String T) (v : T) (hj : j < m)
    (hfail : ∀ l, l < j → isOkB (attempt (i + l)) = false)
    (hok : attempt (i + j) = .ok v) :
    retryAux attempt m i last = (.ok v, i + j + 1) := by
  induction m generalizing i j last with
  | zero => omega
  | succ n ih =>
    cases j with
    | zero =>
      have hok0 : attempt i = .ok v := by simpa using hok
      have hT : isOkB (attempt i) = true := by rw [hok0]; rfl
      rw [retryAux_succ, if_pos hT, hok0]
    | succ j' =>
      have h0 : isOkB (attempt i) = false := by
        have h' := hfail 0 (Nat.succ_pos j')
        simpa using h'
      have hfail' : ∀ l, l < j' → isOkB (attempt (i + 1 + l)) = false := by
        intro l hl
        have h' := hfail (l + 1) (Nat.succ_lt_succ hl)
        have e : i + (l + 1) = i + 1 + l := by omega
        rwa [e] at h'
      have hok' : attempt (i + 1 + j') = .ok v := by
        have e : i + (j' + 1) = i + 1 + j' := by omega
        rwa [e] at hok
      have hres := ih (i + 1) j' (attempt i) (Nat.lt_of_succ_lt_succ hj)
        hfail' hok'
      rw [retryAux_succ, if_neg (by rw [h0]; exact Bool.false_ne_true), hres]
      have e : i + 1 + j' + 1 = i + (j' + 1) + 1 := by omega
      rw [e]

theorem retryAux_all_fail (attempt : Nat → Except String T) (m i : Nat)
    (last : Except String T) (hm : 0 < m)
    (hfail : ∀ l, l < m → isOkB (attempt (i + l)) = false) :
    retryAux attempt m i last = (attempt (i + m - 1), i + m) := by
  induction m generalizing i last with
  | zero => omega
  | succ n ih =>
    have h0 : isOkB (attempt i) = false := by
      have h' := hfail 0 (Nat.succ_pos n)
      simpa using h'
    cases n with
    | zero =>
      rw [retryAux_succ, if_neg (by rw [h0]; exact Bool.false_ne_true)]
      simp [retryAux]
    | succ n' =>
      have hfail' : ∀ l, l < n' + 1 → isOkB (attempt (i + 1 + l)) = false := by
        intro l hl
        have h' := hfail (l + 1) (by omega)
        have e : i + (l + 1) = i + 1 + l := by omega
        rwa [e] at h'
      have hres := ih (i + 1) (attempt i) (Nat.succ_pos n') hfail'
      rw [retryAux_succ, if_neg (by rw [h0]; exact Bool.false_ne_true), hres]
      have e1 : i + 1 + (n' + 1) - 1 = i + (n' + 1 + 1) - 1 := by omega
      have e2 : i + 1 + (n' + 1) = i + (n' + 1 + 1) := by omega
      rw [e1, e2]

/-- C6: `query_with_retry(questions, n)` makes at most n invocations of
`Client::query`; it returns the first successful result, stopping right
after it; when all n attempts fail it returns the error of the last
attempt; and for n = 0 it returns the sentinel error ("Dummy") without
making any attempt. -/
theorem c6_query_with_retry (attempt : Nat → Except String T) (n : Nat) :
    (queryWithRetryAttempts attempt n ≤ n)
    ∧ (n = 0 → queryWithRetry attempt n = .error "Dummy"
        ∧ queryWithRetryAttempts attempt n = 0)
    ∧ (∀ j v, j < n → (∀ l, l < j → isOkB (attempt l) = false) →
        attempt j = .ok v →
        queryWithRetry attempt n = .ok v
        ∧ queryWithRetryAttempts attempt n = j + 1)
    ∧ ((∀ l, l < n → isOkB (attempt l) = false) → 0 < n →
        queryWithRetry attempt n = attempt (n - 1)
        ∧ queryWithRetryAttempts attempt n = n) := by
  refine ⟨?_, ?_, ?_, ?_⟩
  · have := retryAux_snd_le attempt n 0 (.error "Dummy")
    simpa [queryWithRetryAttempts] using this
  · rintro rfl
    exact ⟨rfl, rfl⟩
  · intro j v hj hfail hok
    have hres := retryAux_first_ok attempt n 0 j (.error "Dummy") v hj
      (fun l hl => by simpa using hfail l hl) (by simpa using hok)
    constructor
    · rw [queryWithRetry, hres]
    · rw [queryWithRetryAttempts, hres]
      simp
  · intro hfail hn
    have hres := retryAux_all_fail attempt n 0 (.error "Dummy") hn
      (fun l hl => by simpa using hfail l hl)
    constructor
    · rw [queryWithRetry, hres]
      simp
    · rw [queryWithRetryAttempts, hres]
      simp

/-- C6 witness: with attempt 0 failing and attempt 1 succeeding, three
allowed retries stop after two attempts with the success. -/
theorem c6_query_with_retry_witness :
    queryWithRetry
        (fun i => if i = 0 then (Except.error "boom" : Except String Nat)
          else .ok 7) 3
      = .ok 7
    ∧ queryWithRetryAttempts
        (fun i => if i = 0 then (Except.error "boom" : Except String Nat)
          else .ok 7) 3
      = 2 := by
  have h := (c6_query_with_retry
      (fun i => if i = 0 then (Except.error "boom" : Except String Nat)
        else .ok 7) 3).2.2.1 1 7 (by omega)
    (by
      intro l hl
      have hl0 : l = 0 := by omega
      subst hl0
      rfl)
    rfl
  exact h

/-! ## Client query claims -/

/-- C1 (amended): when the locally-unanswerable remainder is forwarded
upstream and answered with RCODE=NXDOMAIN, `Client::query` returns the
empty list, discarding also the answers already collected from the
override resolver and the cache; local answers are merged into the result
only in the NOERROR branch. -/
theorem c1_nxdomain_discards_local
    (resolve : Question → Option (DnsRecord (List Nat)))
    (cacheGet : Question → Option (List (DnsRecord (List Nat))))
    (ups : List Question → Except String UpstreamResp)
    (qs : List Question) (resp : UpstreamResp)
    (hrem : (tryAnswerFromLocal resolve cacheGet qs).2 ≠ [])
    (hups : ups (tryAnswerFromLocal resolve cacheGet qs).2 = .ok resp)
    (hrc : resp.rcode = .nxDomain) :
    clientQuery resolve cacheGet ups qs = .ok [] := by
  unfold clientQuery
  rw [if_neg (by simpa [List.length_eq_zero] using hrem)]
  simp only [hups, hrc]

/-- C1 counterexample: two questions, the first answered by the override
resolver; the upstream answers the remainder with NXDOMAIN; the code
returns `Ok([])`, not the locally collected answer, refuting the claim
that the local answers are still returned. -/
theorem c1_counterexample :
    clientQuery
        (fun q => if q.qname = "a.test".toList
          then some { owner := "a.test".toList, qclass := 1, ttl := 60,
                      rtype := .a, rdata := [1, 2, 3, 4] }
          else none)
        (fun _ => none)
        (fun _ => .ok { rcode := .nxDomain, extracted := .ok [] })
        [{ qname := "a.test".toList, qtype := .a, qclass := 1 },
         { qname := "b.test".toList, qtype := .a, qclass := 1 }]
      = .ok []
    ∧ (tryAnswerFromLocal
        (fun q => if q.qname = "a.test".toList
          then some { owner := "a.test".toList, qclass := 1, ttl := 60,
                      rtype := .a, rdata := [1, 2, 3, 4] }
          else none)
        (fun _ => none)
        [{ qname := "a.test".toList, qtype := .a, qclass := 1 },
         { qname := "b.test".toList, qtype := .a, qclass := 1 }]).1
      = [{ owner := "a.test".toList, qclass := 1, ttl := 60,
           rtype := .a, rdata := [1, 2, 3, 4] }]
    ∧ ({ owner := "a.test".toList, qclass := 1, ttl := 60,
         rtype := .a, rdata := [1, 2, 3, 4] } : DnsRecord (List Nat))
        ∉ ([] : List (DnsRecord (List Nat))) := by
  refine ⟨rfl, by decide, by simp⟩

/-- C1 witness for the amended theorem, at the counterexample's input. -/
theorem c1_nxdomain_discards_local_witness :
    clientQuery
        (fun q => if q.qname = "a.test".toList
          then some { owner := "a.test".toList, qclass := 1, ttl := 60,
                      rtype := .a, rdata := [1, 2, 3, 4] }
          else none)
        (fun _ => none)
        (fun _ => .ok { rcode := .nxDomain, extracted := .ok [] })
        [{ qname := "a.test".toList, qtype := .a, qclass := 1 },
         { qname := "b.test".toList, qtype := .a, qclass := 1 }]
      = .ok [] :=
  c1_nxdomain_discards_local _ _ _ _
    { rcode := .nxDomain, extracted := .ok [] }
    (by decide) rfl rfl

/-- C2 (amended): when the planner result is the empty record list —
including the case where it was obtained from an upstream NOERROR
response with an empty answer section — the encoded response has zero
answers and RCODE=NXDOMAIN: `build_answer_wireformat` sets NXDOMAIN
whenever the record list is empty, regardless of the upstream rcode. -/
theorem c2_empty_noerror_encodes_nxdomain
    (resolve : Question → Option (DnsRecord (List Nat)))
    (cacheGet : Question → Option (List (DnsRecord (List Nat))))
    (ups : List Question → Except String UpstreamResp)
    (qs : List Question) (resp : UpstreamResp) (pid : Nat)
    (hrem : (tryAnswerFromLocal resolve cacheGet qs).2 ≠ [])
    (hups : ups (tryAnswerFromLocal resolve cacheGet qs).2 = .ok resp)
    (hrc : resp.rcode = .noError)
    (hext : resp.extracted = .ok [])
    (hloc : (tryAnswerFromLocal resolve cacheGet qs).1 = []) :
    clientQuery resolve cacheGet ups qs = .ok []
    ∧ (buildAnswerWireformat pid qs []).rcode = .nxDomain
    ∧ (buildAnswerWireformat pid qs []).answers = [] := by
  refine ⟨?_, rfl, rfl⟩
  unfold clientQuery
  rw [if_neg (by simpa [List.length_eq_zero] using hrem)]
  simp only [hups, hrc, hext, hloc, List.nil_append]

/-- C2 counterexample: a single question with no local answer; upstream
replies NOERROR with an empty answer section; the planner yields `Ok([])`
and the encoded response carries RCODE=NXDOMAIN, not NOERROR as the claim
states. -/
theorem c2_counterexample :
    clientQuery (fun _ => none) (fun _ => none)
        (fun _ => .ok { rcode := .noError, extracted := .ok [] })
        [{ qname := "a.test".toList, qtype := .a, qclass := 1 }]
      = .ok []
    ∧ (buildAnswerWireformat 7
        [{ qname := "a.test".toList, qtype := .a, qclass := 1 }] []).rcode
      = .nxDomain
    ∧ (buildAnswerWireformat 7
        [{ qname := "a.test".toList, qtype := .a, qclass := 1 }] []).rcode
      ≠ .noError := by
  refine ⟨rfl, rfl, by decide⟩

/-- C2 witness for the amended theorem, at the counterexample's input. -/
theorem c2_empty_noerror_encodes_nxdomain_witness :
    clientQuery (fun _ => none) (fun _ => none)
        (fun _ => .ok { rcode := .noError, extracted := .ok [] })
        [{ qname := "a.test".toList, qtype := .a, qclass := 1 }]
      = .ok []
    ∧ (buildAnswerWireformat 7
        [{ qname := "a.test".toList, qtype := .a, qclass := 1 }] []).rcode
      = .nxDomain
    ∧ (buildAnswerWireformat 7
        [{ qname := "a.test".toList, qtype := .a, qclass := 1 }] []).answers
      = [] :=
  c2_empty_noerror_encodes_nxdomain (fun _ => none) (fun _ => none)
    (fun _ => .ok { rcode := .noError, extracted := .ok [] })
    [{ qname := "a.test".toList, qtype := .a, qclass := 1 }]
    { rcode := .noError, extracted := .ok [] } 7
    (by decide) rfl rfl rfl (by decide)

/-! ## Cache claims -/

/-- C3 (amended): a ttl=0 record returned by upstream is included in the
response to the client, and `put_cache` does issue the KV put for it too
(with expirationTtl 0 and metadata ttl 0): there is no ttl=0 skip in the
code; the external KV may reject the write and `cache_answers` swallows
the error. -/
theorem c3_ttl0_put_still_issued :
    (∀ (RD : Type) (serialize : RD → Option (List Nat))
        (hash : List Nat → Nat) (now : Nat) (rec : DnsRecord RD)
        (v : List Nat),
      serialize rec.rdata = some v → rec.ttl = 0 →
      putCache serialize hash now rec
        = some { key := recordToKey hash rec v, value := v,
                 expirationTtl := 0,
                 metadata := { createdTs := now, ttl := 0 } })
    ∧ (∀ (resolve : Question → Option (DnsRecord (List Nat)))
        (cacheGet : Question → Option (List (DnsRecord (List Nat))))
        (ups : List Question → Except String UpstreamResp)
        (qs : List Question) (resp : UpstreamResp)
        (ret : List (DnsRecord (List Nat))) (r : DnsRecord (List Nat)),
      (tryAnswerFromLocal resolve cacheGet qs).2 ≠ [] →
      ups (tryAnswerFromLocal resolve cacheGet qs).2 = .ok resp →
      resp.rcode = .noError → resp.extracted = .ok ret → r ∈ ret →
      ∃ l, clientQuery resolve cacheGet ups qs = .ok l ∧ r ∈ l) := by
  constructor
  · intro RD serialize hash now rec v hser httl
    unfold putCache
    rw [hser, httl]
  · intro resolve cacheGet ups qs resp ret r hrem hups hrc hext hmem
    refine ⟨ret ++ (tryAnswerFromLocal resolve cacheGet qs).1, ?_,
      List.mem_append_left _ hmem⟩
    unfold clientQuery
    rw [if_neg (by simpa [List.length_eq_zero] using hrem)]
    simp only [hups, hrc, hext]

/-- C3 counterexample: a record with ttl=0 and successfully serialized
rdata; `put_cache` does issue a KV put for it (with expirationTtl 0),
refuting the claim that no such write reaches the KV store. -/
theorem c3_counterexample :
    (putCache (fun rd : List Nat => some rd) (fun _ => 0) 5
        { owner := "a.test".toList, qclass := 1, ttl := 0, rtype := .a,
          rdata := [1, 2, 3, 4] }).isSome = true
    ∧ Option.map KvPutReq.expirationTtl
        (putCache (fun rd : List Nat => some rd) (fun _ => 0) 5
          { owner := "a.test".toList, qclass := 1, ttl := 0, rtype := .a,
            rdata := [1, 2, 3, 4] })
      = some 0 :=
  ⟨rfl, rfl⟩

/-- C3 witness for the amended theorem: the ttl=0 put request, and the
inclusion of a ttl=0 upstream record in the client's answer. -/
theorem c3_ttl0_put_still_issued_witness :
    putCache (fun rd : List Nat => some rd) (fun _ => 0) 5
        { owner := "a.test".toList, qclass := 1, ttl := 0, rtype := .a,
          rdata := [1, 2, 3, 4] }
      = some { key := recordToKey (fun _ => 0)
                 (DnsRecord.mk "a.test".toList 1 0 Rtype.a [1, 2, 3, 4])
                 [1, 2, 3, 4],
               value := [1, 2, 3, 4], expirationTtl := 0,
               metadata := { createdTs := 5, ttl := 0 } }
    ∧ ∃ l, clientQuery (fun _ => none) (fun _ => none)
          (fun _ => .ok
            { rcode := .noError,
              extracted := .ok [{ owner := "a.test".toList, qclass := 1,
                                  ttl := 0, rtype := .a,
                                  rdata := [1, 2, 3, 4] }] })
          [{ qname := "a.test".toList, qtype := .a, qclass := 1 }]
        = .ok l
      ∧ ({ owner := "a.test".toList, qclass := 1, ttl := 0, rtype := .a,
           rdata := [1, 2, 3, 4] } : DnsRecord (List Nat)) ∈ l :=
  ⟨c3_ttl0_put_still_issued.1 (List Nat) _ _ 5 _ [1, 2, 3, 4] rfl rfl,
   c3_ttl0_put_still_issued.2 (fun _ => none) (fun _ => none)
     (fun _ => .ok
       { rcode := .noError,
         extracted := .ok [{ owner := "a.test".toList, qclass := 1,
                             ttl := 0, rtype := .a,
                             rdata := [1, 2, 3, 4] }] })
     [{ qname := "a.test".toList, qtype := .a, qclass := 1 }]
     { rcode := .noError,
       extracted := .ok [{ owner := "a.test".toList, qclass := 1, ttl := 0,
                           rtype := .a, rdata := [1, 2, 3, 4] }] }
     [{ owner := "a.test".toList, qclass := 1, ttl := 0, rtype := .a,
        rdata := [1, 2, 3, 4] }]
     { owner := "a.test".toList, qclass := 1, ttl := 0, rtype := .a,
       rdata := [1, 2, 3, 4] }
     (by decide) rfl rfl rfl (by simp)⟩

theorem getCacheLoop_cons {RD : Type} (parse : Rtype → List Nat → Option RD)
    (kv : KvState) (now : Nat) (q : Question) (k : String)
    (rest : List String) :
    getCacheLoop parse kv now q (k :: rest)
      = match kv.getBufMeta k with
        | (some value, some md) =>
          match parse q.qtype value with
          | none => none
          | some rd =>
            match getCacheLoop parse kv now q rest with
            | none => none
            | some restRecs =>
              some ({ owner := q.qname, qclass := q.qclass,
                      ttl := (if u64sub now md.createdTs > md.ttl then 0
                              else md.ttl - u64sub now md.createdTs) % 2 ^ 32,
                      rtype := q.qtype, rdata := rd } :: restRecs)
        | _ => getCacheLoop parse kv now q rest := rfl

theorem getCacheLoop_skip {RD : Type} (parse : Rtype → List Nat → Option RD)
    (kv : KvState) (now : Nat) (q : Question) (k : String)
    (rest : List String)
    (hmiss : (kv.getBufMeta k).1 = none ∨ (kv.getBufMeta k).2 = none) :
    getCacheLoop parse kv now q (k :: rest)
      = getCacheLoop parse kv now q rest := by
  rw [getCacheLoop_cons]
  rcases hg : kv.getBufMeta k with ⟨a, b⟩
  rw [hg] at hmiss
  cases a with
  | none => cases b <;> rfl
  | some v =>
    cases b with
    | none => rfl
    | some md =>
      rcases hmiss with h1 | h2
      · exact Option.noConfusion h1
      · exact Option.noConfusion h2

theorem getCacheLoop_all_miss {RD : Type} (parse : Rtype → List Nat → Option RD)
    (kv : KvState) (now : Nat) (q : Question) (keys : List String)
    (hmiss : ∀ k ∈ keys,
      (kv.getBufMeta k).1 = none ∨ (kv.getBufMeta k).2 = none) :
    getCacheLoop parse kv now q keys = some [] := by
  induction keys with
  | nil => rfl
  | cons k rest ih =>
    rw [getCacheLoop_skip parse kv now q k rest
      (hmiss k (List.mem_cons_self k rest))]
    exact ih (fun x hx => hmiss x (List.mem_cons_of_mem k hx))

/-- C7: `get_cache` never returns Some of an empty list: it returns None
on an empty prefix list, silently skips a listed key whose fetched value
or metadata is missing, and returns None — not Some([]) — when every
listed key was skipped that way. -/
theorem c7_get_cache_no_empty_some :
    (∀ (RD : Type) (parse : Rtype → List Nat → Option RD) (kv : KvState)
        (now : Nat) (q : Question),
      getCache parse kv now q ≠ some [])
    ∧ (∀ (RD : Type) (parse : Rtype → List Nat → Option RD) (kv : KvState)
        (now : Nat) (q : Question),
      kv.listKeys (questionToKeyPfx q) = some [] →
      getCache parse kv now q = none)
    ∧ (∀ (RD : Type) (parse : Rtype → List Nat → Option RD) (kv : KvState)
        (now : Nat) (q : Question) (k : String) (rest : List String),
      ((kv.getBufMeta k).1 = none ∨ (kv.getBufMeta k).2 = none) →
      getCacheLoop parse kv now q (k :: rest)
        = getCacheLoop parse kv now q rest)
    ∧ (∀ (RD : Type) (parse : Rtype → List Nat → Option RD) (kv : KvState)
        (now : Nat) (q : Question) (keys : List String),
      kv.listKeys (questionToKeyPfx q) = some keys →
      (∀ k ∈ keys,
        (kv.getBufMeta k).1 = none ∨ (kv.getBufMeta k).2 = none) →
      getCache parse kv now q = none) := by
  refine ⟨?_, ?_, ?_, ?_⟩
  · intro RD parse kv now q h
    unfold getCache at h
    cases hl : kv.listKeys (questionToKeyPfx q) with
    | none =>
      simp only [hl] at h
      exact Option.noConfusion h
    | some keys =>
      simp only [hl] at h
      by_cases hk : keys.length = 0
      · rw [if_pos hk] at h
        exact Option.noConfusion h
      · rw [if_neg hk] at h
        cases hloop : getCacheLoop parse kv now q keys with
        | none =>
          simp only [hloop] at h
          exact Option.noConfusion h
        | some ret =>
          simp only [hloop] at h
          by_cases hr : ret.length = 0
          · rw [if_pos hr] at h
            exact Option.noConfusion h
          · rw [if_neg hr] at h
            injection h with h'
            exact hr (by rw [h']; rfl)
  · intro RD parse kv now q hl
    unfold getCache
    simp [hl]
  · intro RD parse kv now q k rest hmiss
    exact getCacheLoop_skip parse kv now q k rest hmiss
  · intro RD parse kv now q keys hl hmiss
    unfold getCache
    simp only [hl]
    by_cases hk : keys.length = 0
    · rw [if_pos hk]
    · rw [if_neg hk]
      rw [getCacheLoop_all_miss parse kv now q keys hmiss]
      rfl

/-- C7 witness: a one-key list whose fetch misses — the get skips it and
returns None in every phrasing of the claim. -/
theorem c7_get_cache_no_empty_some_witness :
    getCache (fun _ _ => (none : Option Nat))
        { listKeys := fun _ => some ["k1"],
          getBufMeta := fun _ => (none, none) }
        0 { qname := "a.test".toList, qtype := .a, qclass := 1 } ≠ some []
    ∧ getCache (fun _ _ => (none : Option Nat))
        { listKeys := fun _ => some [],
          getBufMeta := fun _ => (none, none) }
        0 { qname := "a.test".toList, qtype := .a, qclass := 1 } = none
    ∧ getCacheLoop (fun _ _ => (none : Option Nat))
        { listKeys := fun _ => some ["k1"],
          getBufMeta := fun _ => (none, none) }
        0 { qname := "a.test".toList, qtype := .a, qclass := 1 } ["k1", "k2"]
      = getCacheLoop (fun _ _ => (none : Option Nat))
        { listKeys := fun _ => some ["k1"],
          getBufMeta := fun _ => (none, none) }
        0 { qname := "a.test".toList, qtype := .a, qclass := 1 } ["k2"]
    ∧ getCache (fun _ _ => (none : Option Nat))
        { listKeys := fun _ => some ["k1"],
          getBufMeta := fun _ => (none, none) }
        0 { qname := "a.test".toList, qtype := .a, qclass := 1 } = none :=
  ⟨c7_get_cache_no_empty_some.1 Nat _ _ 0 _,
   c7_get_cache_no_empty_some.2.1 Nat _ _ 0 _ rfl,
   c7_get_cache_no_empty_some.2.2.1 Nat _ _ 0 _ "k1" ["k2"] (Or.inl rfl),
   c7_get_cache_no_empty_some.2.2.2 Nat _ _ 0 _ ["k1"] rfl
     (fun _ _ => Or.inl rfl)⟩

theorem u64sub_eq {a b : Nat} (hba : b ≤ a) (ha : a < 2 ^ 64) :
    u64sub a b = a - b := by
  unfold u64sub
  omega

/-- C5: a record cached at time t0 with original TTL τ, read back by
`get_cache` at any time t ≥ t0 (with the key listed and the stored
value/metadata returned by the KV), is surfaced with
TTL = max(0, τ − (t − t0)) — written as `Int.toNat` of the signed
residual.  In particular, a record whose residual is ≤ 0 is returned
with TTL 0 rather than being filtered out. -/
theorem c5_residual_ttl {RD : Type} (parse : Rtype → List Nat → Option RD)
    (serialize : RD → Option (List Nat)) (hash : List Nat → Nat)
    (t0 t : Nat) (rec : DnsRecord RD) (q : Question) (kv : KvState)
    (req : KvPutReq) (rd : RD)
    (hput : putCache serialize hash t0 rec = some req)
    (hlist : kv.listKeys (questionToKeyPfx q) = some [req.key])
    (hget : kv.getBufMeta req.key = (some req.value, some req.metadata))
    (hparse : parse q.qtype req.value = some rd)
    (h01 : t0 ≤ t) (h02 : t < 2 ^ 64) (httl : rec.ttl < 2 ^ 32) :
    getCache parse kv t q
      = some [{ owner := q.qname, qclass := q.qclass,
                ttl := ((rec.ttl : Int) - ((t : Int) - (t0 : Int))).toNat,
                rtype := q.qtype, rdata := rd }] := by
  unfold putCache at hput
  cases hsv : serialize rec.rdata with
  | none =>
    rw [hsv] at hput
    exact Option.noConfusion hput
  | some v =>
    rw [hsv] at hput
    injection hput with hreq
    have hmd : req.metadata = { createdTs := t0, ttl := rec.ttl } := by
      rw [← hreq]
    have hval : req.value = v := by rw [← hreq]
    unfold getCache
    simp only [hlist]
    rw [if_neg (by simp)]
    rw [getCacheLoop_cons, hget, hmd]
    rw [hval] at hparse
    rw [hval]
    have hzero : getCacheLoop parse kv t q ([] : List String) = some [] := rfl
    simp only [hparse, hzero]
    rw [u64sub_eq h01 h02]
    have harith : (if t - t0 > rec.ttl then 0 else rec.ttl - (t - t0)) % 2 ^ 32
        = ((rec.ttl : Int) - ((t : Int) - (t0 : Int))).toNat := by
      split <;> omega
    rw [harith]
    rfl

/-- C5 witness: a record with TTL 300 cached at t0 = 100 and read at
t = 500 is surfaced (not filtered) with residual TTL 0. -/
theorem c5_residual_ttl_witness :
    getCache (fun _ _ => some 7)
        { listKeys := fun _ => some
            [recordToKey (fun _ => 3)
              (DnsRecord.mk "a.test".toList 1 300 Rtype.a 0) [1, 2]],
          getBufMeta := fun _ =>
            (some [1, 2], some { createdTs := 100, ttl := 300 }) }
        500 { qname := "a.test".toList, qtype := .a, qclass := 1 }
      = some [{ owner := "a.test".toList, qclass := 1,
                ttl := (((300 : Nat) : Int)
                  - (((500 : Nat) : Int) - ((100 : Nat) : Int))).toNat,
                rtype := .a, rdata := 7 }] :=
  c5_residual_ttl (fun _ _ => some 7) (fun _ => some [1, 2]) (fun _ => 3)
    100 500 (DnsRecord.mk "a.test".toList 1 300 Rtype.a 0)
    { qname := "a.test".toList, qtype := .a, qclass := 1 }
    { listKeys := fun _ => some
        [recordToKey (fun _ => 3)
          (DnsRecord.mk "a.test".toList 1 300 Rtype.a 0) [1, 2]],
      getBufMeta := fun _ =>
        (some [1, 2], some { createdTs := 100, ttl := 300 }) }
    { key := recordToKey (fun _ => 3)
        (DnsRecord.mk "a.test".toList 1 300 Rtype.a 0) [1, 2],
      value := [1, 2], expirationTtl := 300,
      metadata := { createdTs := 100, ttl := 300 } }
    7 rfl rfl rfl rfl (by norm_num) (by norm_num) (by norm_num)

/-! ## Upstream selection claim -/

theorem get?_isSome_of_lt {l : List α} {i : Nat} (h : i < l.length) :
    (l[i]?).isSome = true := by
  induction l generalizing i with
  | nil => simp at h
  | cons a l ih =>
    cases i with
    | zero => simp
    | succ j =>
      simp only [List.getElem?_cons_succ]
      exact ih (Nat.lt_of_succ_lt_succ h)

/-- C10: for a non-empty upstream list of length at most 2^16 and any
random draw 0 ≤ r < 1, the index computed by `select_upstream` through
`random_range(0, len as u16)` is strictly below the list length, so the
indexing never goes out of bounds; for an empty list there is no valid
element and the lookup yields none. -/
theorem c10_select_upstream_bounds (urls : List String) (r : ℚ)
    (h0 : 0 ≤ r) (h1 : r < 1) :
    (1 ≤ urls.length → urls.length ≤ 2 ^ 16 →
      randomRange 0 (urls.length % 2 ^ 16) r < urls.length
      ∧ (selectUpstream urls r).isSome = true)
    ∧ (urls = [] → selectUpstream urls r = none) := by
  constructor
  · intro hlen hub
    have hidx : randomRange 0 (urls.length % 2 ^ 16) r < urls.length := by
      unfold randomRange fromFloatU16
      have hnn : ¬ (r * ((urls.length % 2 ^ 16 : Nat) : ℚ) < 0) := by
        push_neg
        exact mul_nonneg h0 (Nat.cast_nonneg _)
      rw [if_neg hnn]
      by_cases hcase : urls.length = 2 ^ 16
      · rw [hcase]
        norm_num
      · have hlt : urls.length < 2 ^ 16 := lt_of_le_of_ne hub hcase
        rw [Nat.mod_eq_of_lt hlt]
        have hpos : (0 : ℚ) < (urls.length : ℚ) := by
          exact_mod_cast Nat.lt_of_lt_of_le Nat.zero_lt_one hlen
        have hfl : Nat.floor (r * (urls.length : ℚ)) < urls.length := by
          rw [Nat.floor_lt (mul_nonneg h0 (Nat.cast_nonneg _))]
          calc r * (urls.length : ℚ) < 1 * (urls.length : ℚ) :=
                mul_lt_mul_of_pos_right h1 hpos
            _ = (urls.length : ℚ) := one_mul _
        have hmin : min (Nat.floor (r * (urls.length : ℚ))) 65535
            ≤ Nat.floor (r * (urls.length : ℚ)) := min_le_left _ _
        have hsmall : 0 + min (Nat.floor (r * (urls.length : ℚ))) 65535
            < 2 ^ 16 := by omega
        rw [Nat.mod_eq_of_lt hsmall]
        omega
    exact ⟨hidx, get?_isSome_of_lt hidx⟩
  · rintro rfl
    simp [selectUpstream]

/-- C10 witness: two upstreams and the draw r = 1/2 select index 1; the
empty list yields no element. -/
theorem c10_select_upstream_bounds_witness :
    (randomRange 0 ((["https://a/", "https://b/"] : List String).length
        % 2 ^ 16) (1 / 2)
      < (["https://a/", "https://b/"] : List String).length
    ∧ (selectUpstream ["https://a/", "https://b/"] (1 / 2)).isSome = true)
    ∧ selectUpstream ([] : List String) (1 / 2) = none :=
  ⟨(c10_select_upstream_bounds ["https://a/", "https://b/"] (1 / 2)
      (by norm_num) (by norm_num)).1 (by norm_num) (by norm_num),
   (c10_select_upstream_bounds ([] : List String) (1 / 2)
      (by norm_num) (by norm_num)).2 rfl⟩
